import Mathlib

/-!
Verification of the futfw-trader-automation repository (src/futfw_automation.py).

Strings are modelled as `List Char`. Python string primitives (`find`, `rfind`,
slicing, `strip`) are modelled by their documented semantics; the repository's
functions `run_futfw_analysis`, `send_to_webhook` and `main` are translated
directly from the source. External effects (the Perplexity completion call and
the webhook POST) are oracles supplied through a `World` record, and the
console log plus the outbound network calls are modelled as an event trace.
-/

set_option maxRecDepth 4000

namespace Futfw

/-! ## Python string primitives -/

/-- The braces, written by code point to keep them out of string literals. -/
def lbrace : Char := '\x7b'

def rbrace : Char := '\x7d'

/-- Characters removed by Python's `str.strip()` (the ASCII whitespace set). -/
def pyIsSpaceChar (c : Char) : Bool :=
  c = ' ' || c = '\t' || c = '\n' || c = '\r' || c = '\x0b' || c = '\x0c'

/-- Python `s.strip()`: remove leading and trailing whitespace. -/
def stripList (s : List Char) : List Char :=
  ((s.dropWhile pyIsSpaceChar).reverse.dropWhile pyIsSpaceChar).reverse

/-- Python `s.find(pat)`: index of the leftmost occurrence of `pat` in `s`,
`none` standing for Python's `-1`. -/
def pyFindSub : List Char → List Char → Option Nat
  | [], pat => if pat.isPrefixOf ([] : List Char) then some 0 else none
  | c :: rest, pat =>
    if pat.isPrefixOf (c :: rest) then some 0
    else (pyFindSub rest pat).map (· + 1)

/-- Python `s.find(pat, start)`: leftmost occurrence at or after `start`. -/
def pyFindSubFrom (t pat : List Char) (start : Nat) : Option Nat :=
  (pyFindSub (t.drop start) pat).map (· + start)

/-- Python `s.rfind(c)` for a single character: index of the rightmost
occurrence, `none` standing for `-1`. -/
def pyRFindChar : List Char → Char → Option Nat
  | [], _ => none
  | c :: rest, ch =>
    match pyRFindChar rest ch with
    | some n => some (n + 1)
    | none => if c = ch then some 0 else none

/-- Python `s[a:b]` for nonnegative bounds (clamps, empty when `b ≤ a`). -/
def pySliceNat (t : List Char) (a b : Nat) : List Char :=
  (t.drop a).take (b - a)

/-- Python `s[start:end]` where `end` is the result of `find` (`none` = `-1`):
`s[start:-1]` means up to but excluding the final character. -/
def pySliceFence (t : List Char) (start : Nat) (e : Option Nat) : List Char :=
  match e with
  | some m => pySliceNat t start m
  | none => pySliceNat t start (t.length - 1)

/-! ## Extraction (source lines 96-110) -/

def jsonTag : List Char := "```json".toList

def fenceTag : List Char := "```".toList

/-- Lines 96-103: strip markdown code fences.  If the text contains the
json-tagged opening fence, slice from just past the tag to the next closing
fence (or to `-1` when `find` fails) and strip; else the same with a bare
fence; else leave the text unchanged. -/
def fenceStep (t : List Char) : List Char :=
  match pyFindSub t jsonTag with
  | some n => stripList (pySliceFence t (n + 7) (pyFindSubFrom t fenceTag (n + 7)))
  | none =>
    match pyFindSub t fenceTag with
    | some n => stripList (pySliceFence t (n + 3) (pyFindSubFrom t fenceTag (n + 3)))
    | none => t

/-- Lines 106-110 and 125-127: slice from the first left brace to the last
right brace; `none` when either brace is absent (`start_idx == -1` or
`end_idx == 0`). -/
def bracesStep (t : List Char) : Option (List Char) :=
  match pyFindSub t [lbrace], pyRFindChar t rbrace with
  | some i, some j => some (pySliceNat t i (j + 1))
  | _, _ => none

/-- Lines 96-110: the whole candidate-payload extraction applied to the
(already stripped, line 92) response text. -/
def extract_core (t : List Char) : Option (List Char) :=
  bracesStep (fenceStep t)

/-! ## Sanity checks of the primitives -/

example : pyFindSub ("abcbc").toList (("bc").toList) = some 1 := by decide

example : pyFindSub ("abc").toList (("x").toList) = none := by decide

example : pyRFindChar ("abcbc").toList 'b' = some 3 := by decide

example : stripList ("  ab c\n").toList = ("ab c").toList := by decide

example :
    extract_core ("x```json\n\x7b\"a\": 1\x7d\n``` tail").toList
      = some ("\x7b\"a\": 1\x7d").toList := by decide

example :
    extract_core ("pre \x7b\"a\": 1\x7d post").toList
      = some ("\x7b\"a\": 1\x7d").toList := by decide

example : extract_core ("no braces here").toList = none := by decide

-- no closing fence: slice end is -1, so the final character is dropped
example :
    extract_core ("```json\n\x7b\"a\": 1\x7d!").toList
      = some ("\x7b\"a\": 1\x7d").toList := by decide

/-! ## A model of Python's `json.loads`

The source hands the candidate payload to `json.loads` and then only ever
tests key membership (`field not in analysis_json`) and reads
`analysis.get('symbol', 'UNKNOWN')`.  We therefore model a parsed JSON object
as an association list from decoded keys to the raw lexeme of each value, and
model `json.loads` by a fuel-based scanner over the JSON grammar (objects,
arrays, strings with the standard escapes, numbers, `true`/`false`/`null`).
The pipeline only ever parses a payload that is empty or begins with a left
brace, so only a top-level object needs to be produced. -/

/-- A parsed JSON object: decoded keys paired with raw value lexemes. -/
abbrev JObj := List (List Char × List Char)

/-- JSON insignificant whitespace. -/
def jsonWS (c : Char) : Bool :=
  c = ' ' || c = '\t' || c = '\n' || c = '\r'

def skipWS (s : List Char) : List Char := s.dropWhile jsonWS

def hexVal (c : Char) : Option Nat :=
  if '0' ≤ c ∧ c ≤ '9' then some (c.toNat - '0'.toNat)
  else if 'a' ≤ c ∧ c ≤ 'f' then some (c.toNat - 'a'.toNat + 10)
  else if 'A' ≤ c ∧ c ≤ 'F' then some (c.toNat - 'A'.toNat + 10)
  else none

/-- Scan a JSON string body (the opening quote already consumed): returns the
decoded characters and the rest of the input after the closing quote. -/
def scanString : Nat → List Char → Option (List Char × List Char)
  | 0, _ => none
  | _, [] => none
  | fuel + 1, c :: rest =>
    if c = '"' then some ([], rest)
    else if c = '\\' then
      match rest with
      | [] => none
      | e :: rest2 =>
        let dec : Option (Char × List Char) :=
          if e = '"' then some ('"', rest2)
          else if e = '\\' then some ('\\', rest2)
          else if e = '/' then some ('/', rest2)
          else if e = 'n' then some ('\n', rest2)
          else if e = 't' then some ('\t', rest2)
          else if e = 'r' then some ('\r', rest2)
          else if e = 'b' then some ('\x08', rest2)
          else if e = 'f' then some ('\x0c', rest2)
          else if e = 'u' then
            match rest2 with
            | h1 :: h2 :: h3 :: h4 :: rest3 =>
              match hexVal h1, hexVal h2, hexVal h3, hexVal h4 with
              | some a, some b, some c2, some d =>
                some (Char.ofNat (((a * 16 + b) * 16 + c2) * 16 + d), rest3)
              | _, _, _, _ => none
            | _ => none
          else none
        match dec with
        | some (ch, r) => (scanString fuel r).map (fun p => (ch :: p.1, p.2))
        | none => none
    else (scanString fuel rest).map (fun p => (c :: p.1, p.2))

/-- Characters that may occur in a number lexeme. -/
def numChar (c : Char) : Bool :=
  c.isDigit || c = '-' || c = '+' || c = '.' || c = 'e' || c = 'E'

mutual

/-- Consume one JSON value, returning its raw lexeme and the rest. -/
def skipValue : Nat → List Char → Option (List Char × List Char)
  | 0, _ => none
  | _, [] => none
  | fuel + 1, c :: rest =>
    if c = '"' then
      match scanString (rest.length + 1) rest with
      | some (_, r2) => some ('"' :: rest.take (rest.length - r2.length), r2)
      | none => none
    else if c = lbrace then
      match parseMembers fuel rest with
      | some (_, r2) => some (lbrace :: rest.take (rest.length - r2.length), r2)
      | none => none
    else if c = '[' then
      match skipArray fuel rest with
      | some r2 => some ('[' :: rest.take (rest.length - r2.length), r2)
      | none => none
    else if c = 't' then
      if (("true").toList).isPrefixOf (c :: rest) then
        some (("true").toList, (c :: rest).drop 4)
      else none
    else if c = 'f' then
      if (("false").toList).isPrefixOf (c :: rest) then
        some (("false").toList, (c :: rest).drop 5)
      else none
    else if c = 'n' then
      if (("null").toList).isPrefixOf (c :: rest) then
        some (("null").toList, (c :: rest).drop 4)
      else none
    else if c = '-' ∨ c.isDigit then
      let lex := (c :: rest).takeWhile numChar
      if lex.any Char.isDigit then some (lex, (c :: rest).drop lex.length)
      else none
    else none

/-- Consume the members of an object (the opening brace already consumed),
up to and including the closing brace. -/
def parseMembers : Nat → List Char → Option (JObj × List Char)
  | 0, _ => none
  | fuel + 1, s =>
    match skipWS s with
    | [] => none
    | c :: r =>
      if c = rbrace then some ([], r)
      else if c = '"' then
        match scanString (r.length + 1) r with
        | some (key, r2) =>
          match skipWS r2 with
          | ':' :: r3 =>
            match skipValue fuel (skipWS r3) with
            | some (lex, r4) =>
              match skipWS r4 with
              | ',' :: r5 =>
                match parseMembers fuel r5 with
                | some (ms, r6) => some ((key, lex) :: ms, r6)
                | none => none
              | c2 :: r5 =>
                if c2 = rbrace then some ([(key, lex)], r5) else none
              | [] => none
            | none => none
          | _ => none
        | none => none
      else none

/-- Consume the items of an array (the opening bracket already consumed),
up to and including the closing bracket. -/
def skipArray : Nat → List Char → Option (List Char)
  | 0, _ => none
  | fuel + 1, s =>
    match skipWS s with
    | [] => none
    | c :: r =>
      if c = ']' then some r
      else
        match skipValue fuel (c :: r) with
        | some (_, r2) =>
          match skipWS r2 with
          | ',' :: r3 => skipArray fuel r3
          | c2 :: r3 => if c2 = ']' then some r3 else none
          | [] => none
        | none => none

end

/-- Model of `json.loads` as used at line 111: the payload is empty or begins
with a left brace, so a successful parse yields the top-level object; anything
else is a `JSONDecodeError`. -/
def json_loads_obj (s : List Char) : Option JObj :=
  match skipWS s with
  | [] => none
  | c :: rest =>
    if c = lbrace then
      match parseMembers (2 * s.length + 2) rest with
      | some (j, r2) => if skipWS r2 = [] then some j else none
      | none => none
    else none

/-- Decode a raw string lexeme back to its character content (used to model
`analysis.get('symbol', ...)`, whose value is a decoded Python `str`). -/
def decodeLexeme (lex : List Char) : Option (List Char) :=
  match lex with
  | c :: body =>
    if c = '"' then
      match scanString (body.length + 1) body with
      | some (dec, r) => if r = [] then some dec else none
      | none => none
    else none
  | [] => none

example :
    json_loads_obj ("\x7b\"a\": 1, \"b\": [2, 3], \"c\": \"x\"\x7d").toList
      = some [(("a").toList, ("1").toList), (("b").toList, ("[2, 3]").toList),
              (("c").toList, ("\"x\"").toList)] := by decide

example : json_loads_obj ("\x7b\"a\" 1\x7d").toList = none := by decide

example : json_loads_obj ("\x7b\x7d").toList = some [] := by decide

example : decodeLexeme ("\"xy\"").toList = some (("xy").toList) := by decide

/-! ## Configuration constants (source lines 15-17, 114-116, 156) -/

def SYMBOLS : List (List Char) :=
  [("MGC1").toList, ("MYM1").toList, ("MNQ1").toList, ("XAUTUSDT.P").toList]

def WEBHOOK_URL : List Char :=
  ("https://urrkdejorxotrheccirl.supabase.co/functions/v1/trading-analysis").toList

def WEBHOOK_API_KEY : List Char :=
  ("ftw_sk_live_9x8h4j2k6m3n5p7q1r4t6u8v2w9y1z3b5c7d9e1f3g5h7j9k1m3n5p7q9r1s3t5u7v9w1x3y5z7").toList

/-- The `timeout=30` argument of `requests.post` (line 156). -/
def WEBHOOK_TIMEOUT : Nat := 30

def fSymbol : List Char := ("symbol").toList

def fEntrySignal : List Char := ("entry_signal").toList

/-- Lines 114-116: the fields required of a parsed record. -/
def required_fields : List (List Char) :=
  [("symbol").toList, ("trend_1h").toList, ("trend_15m").toList,
   ("current_price").toList, ("entry_price").toList, ("stop_loss").toList,
   ("take_profit").toList, ("support_levels").toList, ("resistance_levels").toList]

/-! ## Events: console log lines and outbound network calls -/

/-- One observable event of a run: a log line (each carrying the symbol or
field it mentions) or an outbound network call. -/
inductive Ev where
  | logBanner
  | logStarted
  | logKeyMissing
  | logProcessing (s : List Char)
  | logAnalysisStart (s : List Char)
  | svcCall (s : List Char)
  | logReceived (s : List Char)
  | logMissingField (s f : List Char)
  | logAnalysisOk (s : List Char)
  | logNoJson (s : List Char)
  | logParseError (s : List Char)
  | logAnalysisError (s : List Char)
  | logSending (s : List Char)
  | webhookPost (payload : JObj) (url : List Char) (timeoutSecs : Nat)
  | logWebhookOk (s : List Char)
  | logWebhookHTTP (s : List Char) (status : Nat)
  | logWebhookTimeout (s : List Char)
  | logWebhookTransport (s : List Char)
  | logSkip (s : List Char)
  | logSep
  | logSummary (succ fail total : Nat)
deriving DecidableEq, Repr

/-- Outbound calls to the completion service or the webhook. -/
def isNetworkEv : Ev → Bool
  | Ev.svcCall _ => true
  | Ev.webhookPost _ _ _ => true
  | _ => false

/-- Events whose log line references a symbol (or a record built for one). -/
def mentionsSymbolEv : Ev → Bool
  | Ev.logBanner => false
  | Ev.logStarted => false
  | Ev.logKeyMissing => false
  | Ev.logSep => false
  | Ev.logSummary _ _ _ => false
  | _ => true

/-! ## run_futfw_analysis (source lines 68-134) -/

/-- Outcome of the completion-service call: `err` is any raised exception
(transport error, missing content, ...), `ok` carries the response text. -/
inductive SvcResult where
  | err
  | ok (text : List Char)

/-- Line 118-121: the first required field absent from the parsed object. -/
def jHasKey (j : JObj) (f : List Char) : Bool :=
  j.any (fun kv => kv.fst == f)

def firstMissing (fields : List (List Char)) (j : JObj) : Option (List Char) :=
  fields.find? (fun f => !(jHasKey j f))

/-- The extraction-plus-parse stage of the analysis: line 92's `strip`, the
fence handling, the brace boundaries, and `json.loads`. -/
def parse_of_response (text : List Char) : Option JObj :=
  match extract_core (stripList text) with
  | some payload => json_loads_obj payload
  | none => none

/-- Lines 68-134, as a function of the requested symbol and the
completion-service outcome.  Returns the validated record (or `none`) together
with the emitted events, in order. -/
def run_futfw_analysis (symbol : List Char) (svc : SvcResult) : Option JObj × List Ev :=
  match svc with
  | SvcResult.err =>
    (none, [Ev.logAnalysisStart symbol, Ev.svcCall symbol, Ev.logAnalysisError symbol])
  | SvcResult.ok text =>
    let base := [Ev.logAnalysisStart symbol, Ev.svcCall symbol, Ev.logReceived symbol]
    match extract_core (stripList text) with
    | none => (none, base ++ [Ev.logNoJson symbol])
    | some payload =>
      match json_loads_obj payload with
      | none => (none, base ++ [Ev.logParseError symbol])
      | some j =>
        match firstMissing required_fields j with
        | some f => (none, base ++ [Ev.logMissingField symbol f])
        | none => (some j, base ++ [Ev.logAnalysisOk symbol])

/-- The decoded value of the record's `symbol` field (last occurrence wins,
as in a Python dict). -/
def symbolValue (j : JObj) : Option (List Char) :=
  match (j.filter (fun kv => kv.fst == fSymbol)).getLast? with
  | some kv => decodeLexeme kv.snd
  | none => none

/-! ## send_to_webhook (source lines 137-171) -/

/-- Outcome of `requests.post`: a response with a status code, a
`requests.exceptions.Timeout`, or any other exception. -/
inductive PostResult where
  | resp (status : Nat)
  | timeout
  | exc
deriving DecidableEq

/-- Line 142: `analysis.get('symbol', 'UNKNOWN')`. -/
def webhookTag (j : JObj) : List Char :=
  match (j.filter (fun kv => kv.fst == fSymbol)).getLast? with
  | some kv =>
    match decodeLexeme kv.snd with
    | some s => s
    | none => kv.snd
  | none => ("UNKNOWN").toList

/-- Lines 137-171, as a function of the record and the POST outcome.
Returns the success flag and the emitted events. -/
def send_to_webhook (j : JObj) (res : PostResult) : Bool × List Ev :=
  let tag := webhookTag j
  let pre := [Ev.logSending tag, Ev.webhookPost j WEBHOOK_URL WEBHOOK_TIMEOUT]
  match res with
  | PostResult.resp code =>
    if code = 200 then (true, pre ++ [Ev.logWebhookOk tag])
    else (false, pre ++ [Ev.logWebhookHTTP tag code])
  | PostResult.timeout => (false, pre ++ [Ev.logWebhookTimeout tag])
  | PostResult.exc => (false, pre ++ [Ev.logWebhookTransport tag])

/-! ## main (source lines 174-212) -/

/-- The run's environment: the credential and the two external oracles. -/
structure World where
  apiKey : Option (List Char)
  svc : List Char → SvcResult
  post : JObj → PostResult

/-- Line 181: `not os.environ.get('PERPLEXITY_API_KEY')` — absent or empty
is falsy. -/
def keyOk (w : World) : Bool :=
  match w.apiKey with
  | none => false
  | some s => !s.isEmpty

/-- Lines 188-204: one loop iteration.  Returns whether the symbol counted as
a success, and the events of the iteration.  `if analysis:` is Python
truthiness: an empty dict would be falsy. -/
def process_symbol (w : World) (s : List Char) : Bool × List Ev :=
  let a := run_futfw_analysis s (w.svc s)
  let branch : Bool × List Ev :=
    match a.fst with
    | some j =>
      if j.isEmpty then (false, [Ev.logSkip s])
      else send_to_webhook j (w.post j)
    | none => (false, [Ev.logSkip s])
  (branch.fst, Ev.logProcessing s :: a.snd ++ branch.snd ++ [Ev.logSep])

/-- The `for symbol in SYMBOLS` loop with its two counters
(success count, failure count, events). -/
def loop_syms (w : World) : List (List Char) → Nat × Nat × List Ev
  | [] => (0, 0, [])
  | s :: rest =>
    let p := process_symbol w s
    let r := loop_syms w rest
    (if p.fst then r.fst + 1 else r.fst,
     if p.fst then r.snd.fst else r.snd.fst + 1,
     p.snd ++ r.snd.snd)

/-- The observable outcome of one run of `main`. -/
structure RunResult where
  exitCode : Nat
  successCount : Nat
  failureCount : Nat
  trace : List Ev
deriving DecidableEq

def banner : List Ev := [Ev.logBanner, Ev.logStarted, Ev.logBanner]

/-- Lines 174-212: banner, credential check (exit 1 when falsy), the symbol
loop, the summary, and `sys.exit(1)` iff every symbol failed. -/
def main_run (w : World) : RunResult :=
  if keyOk w then
    let r := loop_syms w SYMBOLS
    { exitCode := if r.snd.fst = SYMBOLS.length then 1 else 0
      successCount := r.fst
      failureCount := r.snd.fst
      trace := banner ++ r.snd.snd ++
        [Ev.logBanner, Ev.logSummary r.fst r.snd.fst SYMBOLS.length, Ev.logBanner] }
  else
    { exitCode := 1, successCount := 0, failureCount := 0,
      trace := banner ++ [Ev.logKeyMissing] }

/-! ## Lemmas about the string primitives -/

theorem isPrefixOf_single (c a : Char) (l : List Char) :
    ([c]).isPrefixOf (a :: l) = (c == a) := by
  simp [List.isPrefixOf]

theorem pyFindSub_single_none {u : List Char} {c : Char} :
    pyFindSub u [c] = none ↔ c ∉ u := by
  induction u with
  | nil => simp [pyFindSub, List.isPrefixOf]
  | cons a l ih =>
    simp only [pyFindSub, isPrefixOf_single]
    by_cases h : c = a
    · simp [h]
    · simp [h, Option.map_eq_none', ih]

theorem pyRFindChar_none {u : List Char} {c : Char} :
    pyRFindChar u c = none ↔ c ∉ u := by
  induction u with
  | nil => simp [pyRFindChar]
  | cons a l ih =>
    cases hr : pyRFindChar l c with
    | some n =>
      have hcl : c ∈ l := by
        by_contra hc
        rw [← ih] at hc
        rw [hr] at hc
        cases hc
      simp [pyRFindChar, hr, hcl]
    | none =>
      have hcl : c ∉ l := ih.mp hr
      by_cases h : a = c
      · simp [pyRFindChar, hr, h]
      · simp [pyRFindChar, hr, h, hcl, Ne.symm h]

theorem pyFindSub_single_lt {u : List Char} {c : Char} {i : Nat}
    (h : pyFindSub u [c] = some i) : i < u.length := by
  induction u generalizing i with
  | nil => simp [pyFindSub, List.isPrefixOf] at h
  | cons a l ih =>
    simp only [pyFindSub, isPrefixOf_single] at h
    by_cases hca : (c == a) = true
    · rw [if_pos hca] at h
      simp only [Option.some.injEq] at h
      subst h
      simp
    · rw [if_neg hca] at h
      cases hf : pyFindSub l [c] with
      | none => rw [hf] at h; cases h
      | some m =>
        rw [hf] at h
        simp only [Option.map_some', Option.some.injEq] at h
        subst h
        have := ih hf
        simp only [List.length_cons]
        omega

theorem pyRFindChar_lt {u : List Char} {c : Char} {j : Nat}
    (h : pyRFindChar u c = some j) : j < u.length := by
  induction u generalizing j with
  | nil => simp [pyRFindChar] at h
  | cons a l ih =>
    cases hr : pyRFindChar l c with
    | some n =>
      simp only [pyRFindChar, hr, Option.some.injEq] at h
      subst h
      have := ih hr
      simp only [List.length_cons]
      omega
    | none =>
      simp only [pyRFindChar, hr] at h
      by_cases hac : a = c
      · rw [if_pos hac] at h
        simp only [Option.some.injEq] at h
        subst h
        simp
      · rw [if_neg hac] at h
        cases h

theorem pyFindSub_single_append_left {w u : List Char} {c : Char} (hc : c ∉ w) :
    pyFindSub (w ++ u) [c] = (pyFindSub u [c]).map (· + w.length) := by
  induction w with
  | nil =>
    simp only [List.nil_append, List.length_nil]
    cases pyFindSub u [c] <;> simp
  | cons a w ih =>
    have ha : c ≠ a := fun h => hc (h ▸ List.mem_cons_self a w)
    rw [List.cons_append]
    simp only [pyFindSub, isPrefixOf_single]
    rw [if_neg (by simp [ha])]
    rw [ih (fun hm => hc (List.mem_cons_of_mem a hm))]
    cases pyFindSub u [c] with
    | none => simp
    | some i =>
      simp only [Option.map_some', List.length_cons, Option.some.injEq]
      omega

theorem pyFindSub_single_append_right {u w : List Char} {c : Char} (hc : c ∉ w) :
    pyFindSub (u ++ w) [c] = pyFindSub u [c] := by
  induction u with
  | nil =>
    simp only [List.nil_append]
    rw [pyFindSub_single_none.mpr hc]
    simp [pyFindSub, List.isPrefixOf]
  | cons a l ih =>
    rw [List.cons_append]
    simp only [pyFindSub, isPrefixOf_single]
    rw [ih]

theorem pyRFindChar_append_left {w u : List Char} {c : Char} (hc : c ∉ w) :
    pyRFindChar (w ++ u) c = (pyRFindChar u c).map (· + w.length) := by
  induction w with
  | nil =>
    simp only [List.nil_append, List.length_nil]
    cases pyRFindChar u c <;> simp
  | cons a w ih =>
    have ha : a ≠ c := fun h => hc (h ▸ List.mem_cons_self a w)
    rw [List.cons_append]
    simp only [pyRFindChar]
    rw [ih (fun hm => hc (List.mem_cons_of_mem a hm))]
    cases pyRFindChar u c with
    | none => simp [ha]
    | some j =>
      simp only [Option.map_some', List.length_cons, Option.some.injEq]
      omega

theorem pyRFindChar_append_right {u w : List Char} {c : Char} (hc : c ∉ w) :
    pyRFindChar (u ++ w) c = pyRFindChar u c := by
  induction u with
  | nil =>
    simp only [List.nil_append]
    rw [pyRFindChar_none.mpr hc]
    simp [pyRFindChar]
  | cons a l ih =>
    rw [List.cons_append]
    simp only [pyRFindChar]
    rw [ih]

theorem bracesStep_append_left {w u : List Char}
    (hl : lbrace ∉ w) (hr : rbrace ∉ w) :
    bracesStep (w ++ u) = bracesStep u := by
  simp only [bracesStep]
  rw [pyFindSub_single_append_left hl, pyRFindChar_append_left hr]
  cases hf : pyFindSub u [lbrace] with
  | none => simp
  | some i =>
    cases hg : pyRFindChar u rbrace with
    | none => simp
    | some j =>
      simp only [Option.map_some', Option.some.injEq]
      have h1 : i + w.length = w.length + i := Nat.add_comm _ _
      simp only [pySliceNat]
      rw [h1, List.drop_append]
      have h2 : j + w.length + 1 - (w.length + i) = j + 1 - i := by omega
      rw [h2]

theorem bracesStep_append_right {u w : List Char}
    (hl : lbrace ∉ w) (hr : rbrace ∉ w) :
    bracesStep (u ++ w) = bracesStep u := by
  simp only [bracesStep]
  rw [pyFindSub_single_append_right hl, pyRFindChar_append_right hr]
  cases hf : pyFindSub u [lbrace] with
  | none => simp
  | some i =>
    cases hg : pyRFindChar u rbrace with
    | none => simp
    | some j =>
      have hi := pyFindSub_single_lt hf
      have hj := pyRFindChar_lt hg
      simp only [pySliceNat, Option.some.injEq]
      rw [List.drop_append_of_le_length (Nat.le_of_lt hi),
        List.take_append_of_le_length (by rw [List.length_drop]; omega)]

theorem ws_list_no_braces {w : List Char} (hw : ∀ c ∈ w, pyIsSpaceChar c = true) :
    lbrace ∉ w ∧ rbrace ∉ w :=
  ⟨fun hm => absurd (hw _ hm) (by decide), fun hm => absurd (hw _ hm) (by decide)⟩

/-- Stripping surrounding whitespace does not change the brace-bounded
candidate payload. -/
theorem bracesStep_stripList (u : List Char) :
    bracesStep (stripList u) = bracesStep u := by
  have hw := ws_list_no_braces
    (w := u.takeWhile pyIsSpaceChar) (fun c hc => List.mem_takeWhile_imp hc)
  have h1 : bracesStep u = bracesStep (u.dropWhile pyIsSpaceChar) := by
    conv_lhs => rw [← List.takeWhile_append_dropWhile pyIsSpaceChar u]
    exact bracesStep_append_left hw.1 hw.2
  have hv :
      u.dropWhile pyIsSpaceChar
        = ((u.dropWhile pyIsSpaceChar).reverse.dropWhile pyIsSpaceChar).reverse
          ++ ((u.dropWhile pyIsSpaceChar).reverse.takeWhile pyIsSpaceChar).reverse := by
    conv_lhs =>
      rw [← List.reverse_reverse (u.dropWhile pyIsSpaceChar),
        ← List.takeWhile_append_dropWhile pyIsSpaceChar (u.dropWhile pyIsSpaceChar).reverse,
        List.reverse_append]
  have hw2 := ws_list_no_braces
    (w := ((u.dropWhile pyIsSpaceChar).reverse.takeWhile pyIsSpaceChar).reverse)
    (fun c hc => List.mem_takeWhile_imp (List.mem_reverse.mp hc))
  have h2 : bracesStep (u.dropWhile pyIsSpaceChar) = bracesStep (stripList u) := by
    conv_lhs => rw [hv]
    exact bracesStep_append_right hw2.1 hw2.2
  rw [h1, h2]

theorem bracesStep_eq_none_iff (u : List Char) :
    bracesStep u = none ↔ lbrace ∉ u ∨ rbrace ∉ u := by
  simp only [bracesStep]
  cases hf : pyFindSub u [lbrace] with
  | none => simp [pyFindSub_single_none.mp hf]
  | some i =>
    cases hg : pyRFindChar u rbrace with
    | none => simp [pyRFindChar_none.mp hg]
    | some j =>
      have h1 : lbrace ∈ u := by
        by_contra hc
        rw [← pyFindSub_single_none] at hc
        rw [hf] at hc
        cases hc
      have h2 : rbrace ∈ u := by
        by_contra hc
        rw [← pyRFindChar_none] at hc
        rw [hg] at hc
        cases hc
      simp [h1, h2]

/-! ## The extraction procedure as the specification words it (claims C2, C10) -/

/-- The fence-handling result as the specification words it: the content
between the json-tagged opening fence and the next closing fence; else the
content between the first fence and the next closing fence; else the text
verbatim.  The specification does not say what happens when the selected
opening fence has no closing fence after it (that case is claim C10); this
definition takes the rest of the text there, and the comparison theorem
assumes a closing fence exists. -/
def specBody (t : List Char) : List Char :=
  match pyFindSub t jsonTag with
  | some n =>
    match pyFindSubFrom t fenceTag (n + 7) with
    | some m => pySliceNat t (n + 7) m
    | none => t.drop (n + 7)
  | none =>
    match pyFindSub t fenceTag with
    | some n =>
      match pyFindSubFrom t fenceTag (n + 3) with
      | some m => pySliceNat t (n + 3) m
      | none => t.drop (n + 3)
    | none => t

/-- The candidate payload as the specification words it: the substring of the
resulting text from the first left brace to the last right brace, failing
when either brace is absent. -/
def extract_candidate_spec (t : List Char) : Option (List Char) :=
  bracesStep (specBody t)

/-- The opening fence selected by the priority order, if any, has a closing
fence after it — the situation the claim's wording presupposes. -/
def wellFenced (t : List Char) : Bool :=
  match pyFindSub t jsonTag with
  | some n => (pyFindSubFrom t fenceTag (n + 7)).isSome
  | none =>
    match pyFindSub t fenceTag with
    | some n => (pyFindSubFrom t fenceTag (n + 3)).isSome
    | none => true

theorem extract_core_eq_spec (t : List Char) (h : wellFenced t = true) :
    extract_core t = extract_candidate_spec t := by
  cases hj : pyFindSub t jsonTag with
  | some n =>
    have h' : (pyFindSubFrom t fenceTag (n + 7)).isSome = true := by
      simpa [wellFenced, hj] using h
    cases hm : pyFindSubFrom t fenceTag (n + 7) with
    | none => rw [hm] at h'; cases h'
    | some m =>
      simp only [extract_core, fenceStep, hj, hm, pySliceFence]
      rw [bracesStep_stripList]
      simp only [extract_candidate_spec, specBody, hj, hm]
  | none =>
    cases hf : pyFindSub t fenceTag with
    | some n =>
      have h' : (pyFindSubFrom t fenceTag (n + 3)).isSome = true := by
        simpa [wellFenced, hj, hf] using h
      cases hm : pyFindSubFrom t fenceTag (n + 3) with
      | none => rw [hm] at h'; cases h'
      | some m =>
        simp only [extract_core, fenceStep, hj, hf, hm, pySliceFence]
        rw [bracesStep_stripList]
        simp only [extract_candidate_spec, specBody, hj, hf, hm]
    | none =>
      simp only [extract_core, fenceStep, hj, hf, extract_candidate_spec, specBody]

/-- C2: for every response text (here, any text whose selected opening fence
is closed — the unclosed case is C10), the extraction applies exactly the
claimed priority order — json-tagged fence content, else first fence content,
else the text verbatim, then the substring from the first left brace to the
last right brace — and fails exactly when the resulting text has no left
brace or no right brace. -/
theorem C2_extraction_priority (t : List Char) (h : wellFenced t = true) :
    extract_core t = extract_candidate_spec t ∧
    (extract_core t = none ↔ lbrace ∉ specBody t ∨ rbrace ∉ specBody t) := by
  have heq := extract_core_eq_spec t h
  refine ⟨heq, ?_⟩
  rw [heq]
  simp only [extract_candidate_spec]
  exact bracesStep_eq_none_iff _

/-- Witness for C2 at a concrete fenced response text. -/
theorem C2_extraction_priority_witness :
    wellFenced (("x```json\n\x7b\"a\": 1\x7d\n``` y").toList) = true ∧
    extract_core (("x```json\n\x7b\"a\": 1\x7d\n``` y").toList)
      = extract_candidate_spec (("x```json\n\x7b\"a\": 1\x7d\n``` y").toList) :=
  ⟨by decide, (C2_extraction_priority _ (by decide)).1⟩

/-- The index just past the opening fence tag that lines 96-103 select:
past the json tag when it occurs, else past the first bare fence. -/
def fenceOpenStart (t : List Char) : Option Nat :=
  match pyFindSub t jsonTag with
  | some n => some (n + 7)
  | none =>
    match pyFindSub t fenceTag with
    | some n => some (n + 3)
    | none => none

/-- C10: when the text contains an opening fence tag with no closing fence
after it, the fence step does not fail: it takes the substring from just
after the opening tag up to but excluding the final character of the text
(Python's `find` returned `-1` and is used as the slice end), and extraction
proceeds on that truncated text. -/
theorem C10_unclosed_fence (t : List Char) (s : Nat)
    (hs : fenceOpenStart t = some s)
    (hnc : pyFindSubFrom t fenceTag s = none) :
    fenceStep t = stripList (pySliceNat t s (t.length - 1)) ∧
    extract_core t = bracesStep (pySliceNat t s (t.length - 1)) := by
  cases hj : pyFindSub t jsonTag with
  | some n =>
    have hsn : s = n + 7 := by
      simp only [fenceOpenStart, hj, Option.some.injEq] at hs
      omega
    subst hsn
    have h1 : fenceStep t = stripList (pySliceNat t (n + 7) (t.length - 1)) := by
      simp only [fenceStep, hj, hnc, pySliceFence]
    exact ⟨h1, by rw [extract_core, h1, bracesStep_stripList]⟩
  | none =>
    cases hf : pyFindSub t fenceTag with
    | some n =>
      have hsn : s = n + 3 := by
        simp only [fenceOpenStart, hj, hf, Option.some.injEq] at hs
        omega
      subst hsn
      have h1 : fenceStep t = stripList (pySliceNat t (n + 3) (t.length - 1)) := by
        simp only [fenceStep, hj, hf, hnc, pySliceFence]
      exact ⟨h1, by rw [extract_core, h1, bracesStep_stripList]⟩
    | none =>
      simp only [fenceOpenStart, hj, hf] at hs
      cases hs

/-- Witness for C10 at a concrete text with an unclosed json fence. -/
theorem C10_unclosed_fence_witness :
    fenceStep (("```json\n\x7b\"a\": 1\x7d!").toList)
      = stripList (pySliceNat (("```json\n\x7b\"a\": 1\x7d!").toList) 7
          ((("```json\n\x7b\"a\": 1\x7d!").toList).length - 1)) ∧
    extract_core (("```json\n\x7b\"a\": 1\x7d!").toList)
      = bracesStep (pySliceNat (("```json\n\x7b\"a\": 1\x7d!").toList) 7
          ((("```json\n\x7b\"a\": 1\x7d!").toList).length - 1)) :=
  C10_unclosed_fence _ 7 (by decide) (by decide)

/-! ## Validation of parsed records (claims C1, C4) -/

/-- Any record returned by the analysis passed the required-fields loop. -/
theorem run_some_valid {symbol : List Char} {svc : SvcResult} {j : JObj}
    (h : (run_futfw_analysis symbol svc).fst = some j) :
    ∀ f ∈ required_fields, jHasKey j f = true := by
  cases svc with
  | err => simp [run_futfw_analysis] at h
  | ok text =>
    simp only [run_futfw_analysis] at h
    cases he : extract_core (stripList text) with
    | none => simp [he] at h
    | some payload =>
      cases hp : json_loads_obj payload with
      | none => simp [he, hp] at h
      | some j0 =>
        cases hm : firstMissing required_fields j0 with
        | some f => simp [he, hp, hm] at h
        | none =>
          simp only [he, hp, hm] at h
          have hj : j0 = j := by simpa using h
          subst hj
          intro f hf
          have := List.find?_eq_none.mp hm f hf
          simpa using this

/-- C1 (counterexample): on a response carrying symbol "ZZZ" with all nine
required keys, the analysis requested for "MGC1" returns a record whose
`symbol` field is "ZZZ", not the requested symbol — the code never compares
the returned `symbol` field with the requested one. -/
def cBadText : List Char :=
  ("\x7b\"symbol\": \"ZZZ\", \"trend_1h\": \"bullish\", \"trend_15m\": \"neutral\", \"current_price\": 10.5, \"entry_price\": 10, \"stop_loss\": 9, \"take_profit\": 12, \"support_levels\": [9, 8], \"resistance_levels\": [11, 12]\x7d").toList

/-- C1 is false as stated: the analysis for "MGC1" returns a record (not a
Failure) whose `symbol` field decodes to "ZZZ" ≠ "MGC1". -/
theorem C1_symbol_counterexample :
    (run_futfw_analysis (("MGC1").toList) (SvcResult.ok cBadText)).fst.isSome = true ∧
    ((run_futfw_analysis (("MGC1").toList) (SvcResult.ok cBadText)).fst.bind symbolValue
      = some (("ZZZ").toList)) ∧
    ("ZZZ").toList ≠ ("MGC1").toList := by
  refine ⟨by decide, by decide, by decide⟩

/-- C1 (amended): for every symbol and service outcome, the analysis either
returns a Failure (`none`) or a record containing all nine required keys
(including a `symbol` key, whose value is taken from the response and is not
checked against the requested symbol). -/
theorem C1_analysis_required_keys (symbol : List Char) (svc : SvcResult) :
    (run_futfw_analysis symbol svc).fst = none ∨
    ∃ j, (run_futfw_analysis symbol svc).fst = some j ∧
      ∀ f ∈ required_fields, jHasKey j f = true := by
  cases hr : (run_futfw_analysis symbol svc).fst with
  | none => exact Or.inl rfl
  | some j => exact Or.inr ⟨j, rfl, run_some_valid hr⟩

/-- C4: a parsed payload is accepted exactly when all nine required keys are
present; `entry_signal` is not required; when a key is missing, the first
missing key is reported and the whole record is discarded (the analysis
returns `none`, never a partial record). -/
theorem C4_validation (j : JObj) (f symbol text : List Char) :
    (firstMissing required_fields j = none ↔ ∀ g ∈ required_fields, jHasKey j g = true) ∧
    fEntrySignal ∉ required_fields ∧
    (firstMissing required_fields j = some f → f ∈ required_fields ∧ jHasKey j f = false) ∧
    (parse_of_response text = some j → firstMissing required_fields j = some f →
      (run_futfw_analysis symbol (SvcResult.ok text)).fst = none ∧
      Ev.logMissingField symbol f ∈ (run_futfw_analysis symbol (SvcResult.ok text)).snd) := by
  refine ⟨⟨?_, ?_⟩, by decide, ?_, ?_⟩
  · intro h g hg
    have := List.find?_eq_none.mp h g hg
    simpa using this
  · intro h
    apply List.find?_eq_none.mpr
    intro g hg
    simp [h g hg]
  · intro h
    refine ⟨List.mem_of_find?_eq_some h, ?_⟩
    have := List.find?_some h
    simpa using this
  · intro hp hm
    simp only [parse_of_response] at hp
    cases he : extract_core (stripList text) with
    | none => simp [he] at hp
    | some payload =>
      simp only [he] at hp
      simp only [run_futfw_analysis, he, hp, hm]
      exact ⟨by simp, by simp⟩

/-- Witness for C4 at a concrete response missing `trend_1h`. -/
def cMissText : List Char := ("\x7b\"symbol\": \"X\"\x7d").toList

theorem C4_validation_witness :
    (run_futfw_analysis (("MGC1").toList) (SvcResult.ok cMissText)).fst = none ∧
    Ev.logMissingField (("MGC1").toList) (("trend_1h").toList)
      ∈ (run_futfw_analysis (("MGC1").toList) (SvcResult.ok cMissText)).snd :=
  (C4_validation [(("symbol").toList, ("\"X\"").toList)] (("trend_1h").toList)
    (("MGC1").toList) cMissText).2.2.2 (by decide) (by decide)

/-! ## The publisher (claim C5) -/

/-- C5: publishing succeeds exactly when the HTTP status is 200; any other
status yields failure reported with the status code; a timeout of the fixed
30-unit request timeout is reported as a kind distinct from other transport
errors; every invocation performs the POST with that fixed timeout. -/
theorem C5_webhook (j : JObj) (res : PostResult) :
    ((send_to_webhook j res).fst = true ↔ res = PostResult.resp 200) ∧
    (∀ c, res = PostResult.resp c → c ≠ 200 →
      (send_to_webhook j res).fst = false ∧
      Ev.logWebhookHTTP (webhookTag j) c ∈ (send_to_webhook j res).snd) ∧
    (res = PostResult.timeout →
      (send_to_webhook j res).fst = false ∧
      Ev.logWebhookTimeout (webhookTag j) ∈ (send_to_webhook j res).snd ∧
      ∀ t, Ev.logWebhookTransport t ∉ (send_to_webhook j res).snd) ∧
    (res = PostResult.exc →
      (send_to_webhook j res).fst = false ∧
      Ev.logWebhookTransport (webhookTag j) ∈ (send_to_webhook j res).snd ∧
      ∀ t, Ev.logWebhookTimeout t ∉ (send_to_webhook j res).snd) ∧
    Ev.webhookPost j WEBHOOK_URL WEBHOOK_TIMEOUT ∈ (send_to_webhook j res).snd ∧
    WEBHOOK_TIMEOUT = 30 := by
  cases res with
  | resp c =>
    by_cases hc : c = 200
    · subst hc
      simp [send_to_webhook, WEBHOOK_TIMEOUT]
    · simp [send_to_webhook, hc, WEBHOOK_TIMEOUT]
  | timeout => simp [send_to_webhook, WEBHOOK_TIMEOUT]
  | exc => simp [send_to_webhook, WEBHOOK_TIMEOUT]

/-- Witness for C5 at status 500. -/
theorem C5_webhook_witness :
    (send_to_webhook [] (PostResult.resp 500)).fst = false ∧
    Ev.logWebhookHTTP (webhookTag []) 500 ∈ (send_to_webhook [] (PostResult.resp 500)).snd :=
  (C5_webhook [] (PostResult.resp 500)).2.1 500 rfl (by decide)

/-! ## Driver lemmas (claims C3, C6, C7, C8, C9) -/

/-- Each loop iteration adds exactly one to exactly one of the counters. -/
theorem loop_syms_step (w : World) (s : List Char) (l : List (List Char)) :
    ((loop_syms w (s :: l)).fst = (loop_syms w l).fst + 1 ∧
      (loop_syms w (s :: l)).snd.fst = (loop_syms w l).snd.fst) ∨
    ((loop_syms w (s :: l)).fst = (loop_syms w l).fst ∧
      (loop_syms w (s :: l)).snd.fst = (loop_syms w l).snd.fst + 1) := by
  cases hp : (process_symbol w s).fst with
  | true => exact Or.inl (by simp [loop_syms, hp])
  | false => exact Or.inr (by simp [loop_syms, hp])

/-- The counters always account for every symbol of the list. -/
theorem loop_syms_sum (w : World) (l : List (List Char)) :
    (loop_syms w l).fst + (loop_syms w l).snd.fst = l.length := by
  induction l with
  | nil => rfl
  | cons s rest ih =>
    cases hp : (process_symbol w s).fst with
    | true => simp [loop_syms, hp]; omega
    | false => simp [loop_syms, hp]; omega

/-- Every listed symbol gets its `Processing` log line, whatever the per-symbol
outcomes are. -/
theorem loop_syms_trace_processing (w : World) {s : List Char} {l : List (List Char)}
    (hs : s ∈ l) : Ev.logProcessing s ∈ (loop_syms w l).snd.snd := by
  induction l with
  | nil => cases hs
  | cons a rest ih =>
    simp only [loop_syms]
    rcases List.mem_cons.mp hs with h | h
    · subst h
      apply List.mem_append_left
      simp [process_symbol]
    · exact List.mem_append_right _ (ih h)

/-- The analysis stage performs no webhook POST. -/
theorem analysis_no_post {symbol : List Char} {svc : SvcResult} {j : JObj}
    {u : List Char} {n : Nat} :
    Ev.webhookPost j u n ∉ (run_futfw_analysis symbol svc).snd := by
  cases svc with
  | err => simp [run_futfw_analysis]
  | ok text =>
    cases he : extract_core (stripList text) with
    | none => simp [run_futfw_analysis, he]
    | some payload =>
      cases hp : json_loads_obj payload with
      | none => simp [run_futfw_analysis, he, hp]
      | some j0 =>
        cases hm : firstMissing required_fields j0 with
        | some f => simp [run_futfw_analysis, he, hp, hm]
        | none => simp [run_futfw_analysis, he, hp, hm]

/-- Any webhook POST event of the publisher carries exactly the record it was
given (and the fixed URL and timeout). -/
theorem send_post_mem {j j' : JObj} {res : PostResult} {u : List Char} {n : Nat}
    (h : Ev.webhookPost j' u n ∈ (send_to_webhook j res).snd) : j' = j := by
  cases res with
  | resp c =>
    by_cases hc : c = 200
    · subst hc
      simp [send_to_webhook] at h
      exact h.1
    · simp [send_to_webhook, hc] at h
      exact h.1
  | timeout =>
    simp [send_to_webhook] at h
    exact h.1
  | exc =>
    simp [send_to_webhook] at h
    exact h.1

/-- A webhook POST inside one iteration means the analysis returned exactly
that record. -/
theorem process_post_origin {w : World} {s : List Char} {j : JObj}
    {u : List Char} {n : Nat}
    (h : Ev.webhookPost j u n ∈ (process_symbol w s).snd) :
    (run_futfw_analysis s (w.svc s)).fst = some j := by
  cases ha : (run_futfw_analysis s (w.svc s)).fst with
  | none =>
    simp only [process_symbol, ha] at h
    rcases List.mem_cons.mp h with h0 | h1
    · cases h0
    · rcases List.mem_append.mp h1 with h2 | h3
      · rcases List.mem_append.mp h2 with h4 | h5
        · exact absurd h4 analysis_no_post
        · simp at h5
      · simp at h3
  | some j0 =>
    by_cases hj : j0.isEmpty
    · simp only [process_symbol, ha, hj, if_pos] at h
      rcases List.mem_cons.mp h with h0 | h1
      · cases h0
      · rcases List.mem_append.mp h1 with h2 | h3
        · rcases List.mem_append.mp h2 with h4 | h5
          · exact absurd h4 analysis_no_post
          · simp at h5
        · simp at h3
    · simp only [process_symbol, ha, hj, if_neg] at h
      rcases List.mem_cons.mp h with h0 | h1
      · cases h0
      · rcases List.mem_append.mp h1 with h2 | h3
        · rcases List.mem_append.mp h2 with h4 | h5
          · exact absurd h4 analysis_no_post
          · rw [send_post_mem h5]
        · simp at h3

/-- A webhook POST inside the loop trace comes from some listed symbol whose
analysis returned exactly that record. -/
theorem loop_post_origin {w : World} {l : List (List Char)} {j : JObj}
    {u : List Char} {n : Nat}
    (h : Ev.webhookPost j u n ∈ (loop_syms w l).snd.snd) :
    ∃ s, s ∈ l ∧ (run_futfw_analysis s (w.svc s)).fst = some j := by
  induction l with
  | nil => simp [loop_syms] at h
  | cons a rest ih =>
    simp only [loop_syms] at h
    rcases List.mem_append.mp h with h1 | h2
    · exact ⟨a, List.mem_cons_self a rest, process_post_origin h1⟩
    · obtain ⟨s, hs, hj⟩ := ih h2
      exact ⟨s, List.mem_cons_of_mem a hs, hj⟩

/-- C3: when the credential check passes, the process signals failure (exit
code 1) exactly when the success count is zero after all symbols are
attempted; if at least one symbol succeeded, it exits normally even when
others failed. -/
theorem C3_exit_code (w : World) (h : keyOk w = true) :
    ((main_run w).exitCode ≠ 0 ↔ (main_run w).successCount = 0) ∧
    ((main_run w).successCount ≠ 0 → (main_run w).exitCode = 0) := by
  have hsum := loop_syms_sum w SYMBOLS
  have hexit : (main_run w).exitCode
      = if (loop_syms w SYMBOLS).snd.fst = SYMBOLS.length then 1 else 0 := by
    simp [main_run, h]
  have hsc : (main_run w).successCount = (loop_syms w SYMBOLS).fst := by
    simp [main_run, h]
  rw [hexit, hsc]
  by_cases hf : (loop_syms w SYMBOLS).snd.fst = SYMBOLS.length
  · rw [if_pos hf]
    refine ⟨⟨fun _ => by omega, fun _ => by omega⟩,
      fun hs => absurd (show (loop_syms w SYMBOLS).fst = 0 by omega) hs⟩
  · rw [if_neg hf]
    refine ⟨⟨fun hne => absurd rfl hne,
      fun hz => absurd (show (loop_syms w SYMBOLS).snd.fst = SYMBOLS.length by omega) hf⟩,
      fun _ => rfl⟩

/-- Witness world whose credential check passes but every service call fails. -/
def wErr : World :=
  { apiKey := some (("k").toList), svc := fun _ => SvcResult.err,
    post := fun _ => PostResult.exc }

/-- Witness for C3 at a concrete world (credential present). -/
theorem C3_exit_code_witness :
    (((main_run wErr).exitCode ≠ 0 ↔ (main_run wErr).successCount = 0) ∧
      ((main_run wErr).successCount ≠ 0 → (main_run wErr).exitCode = 0)) :=
  C3_exit_code wErr (by decide)

/-- C6: when the completion-service credential is absent, the run exits with
code 1, its whole trace is the three banner lines and the error line, and so
no network call happens and no log line references any symbol. -/
theorem C6_missing_key (w : World) (h : keyOk w = false) :
    (main_run w).exitCode = 1 ∧
    (main_run w).trace = [Ev.logBanner, Ev.logStarted, Ev.logBanner, Ev.logKeyMissing] ∧
    ∀ e ∈ (main_run w).trace, isNetworkEv e = false ∧ mentionsSymbolEv e = false := by
  have htrace : (main_run w).trace
      = [Ev.logBanner, Ev.logStarted, Ev.logBanner, Ev.logKeyMissing] := by
    simp [main_run, h, banner]
  refine ⟨by simp [main_run, h], htrace, ?_⟩
  rw [htrace]
  intro e he
  rcases List.mem_cons.mp he with h1 | he
  · subst h1; exact ⟨rfl, rfl⟩
  · rcases List.mem_cons.mp he with h1 | he
    · subst h1; exact ⟨rfl, rfl⟩
    · rcases List.mem_cons.mp he with h1 | he
      · subst h1; exact ⟨rfl, rfl⟩
      · rcases List.mem_cons.mp he with h1 | he
        · subst h1; exact ⟨rfl, rfl⟩
        · cases he

/-- Witness world with no credential at all. -/
def wNoKey : World :=
  { apiKey := none, svc := fun _ => SvcResult.err, post := fun _ => PostResult.exc }

/-- Witness for C6 at a concrete world without the credential. -/
theorem C6_missing_key_witness :
    (main_run wNoKey).exitCode = 1 ∧
    (main_run wNoKey).trace = [Ev.logBanner, Ev.logStarted, Ev.logBanner, Ev.logKeyMissing] ∧
    ∀ e ∈ (main_run wNoKey).trace, isNetworkEv e = false ∧ mentionsSymbolEv e = false :=
  C6_missing_key wNoKey (by decide)

/-- C7: every per-symbol failure is absorbed at the symbol boundary: whatever
the per-symbol outcomes, every listed symbol is processed (its `Processing`
line appears), the two counters account for all symbols, and a symbol counts
as a success exactly when its analysis returned a (truthy) record and the
publish returned True — every failure path makes it a failure instead, never
an abort. -/
theorem C7_failure_isolation (w : World) (h : keyOk w = true) :
    (∀ s ∈ SYMBOLS, Ev.logProcessing s ∈ (main_run w).trace) ∧
    (main_run w).successCount + (main_run w).failureCount = SYMBOLS.length ∧
    ∀ s, ((process_symbol w s).fst = true ↔
      ∃ j, (run_futfw_analysis s (w.svc s)).fst = some j ∧ ¬j.isEmpty ∧
        (send_to_webhook j (w.post j)).fst = true) := by
  refine ⟨?_, ?_, ?_⟩
  · intro s hs
    simp only [main_run, h, if_true]
    apply List.mem_append_left
    exact List.mem_append_right _ (loop_syms_trace_processing w hs)
  · simp only [main_run, h, if_true]
    exact loop_syms_sum w SYMBOLS
  · intro s
    cases ha : (run_futfw_analysis s (w.svc s)).fst with
    | none => simp [process_symbol, ha]
    | some j0 =>
      by_cases hj : j0 = []
      · subst hj
        simp [process_symbol, ha]
      · simp [process_symbol, ha, hj, List.isEmpty_iff]

/-- Witness for C7 at a concrete world (credential present). -/
theorem C7_failure_isolation_witness :
    (∀ s ∈ SYMBOLS, Ev.logProcessing s ∈ (main_run wErr).trace) ∧
    (main_run wErr).successCount + (main_run wErr).failureCount = SYMBOLS.length ∧
    ∀ s, ((process_symbol wErr s).fst = true ↔
      ∃ j, (run_futfw_analysis s (wErr.svc s)).fst = some j ∧ ¬j.isEmpty ∧
        (send_to_webhook j (wErr.post j)).fst = true) :=
  C7_failure_isolation wErr (by decide)

/-- C9: when the credential check passes, every loop iteration increments
exactly one of the two counters by exactly one, so after the loop the counts
are non-negative and sum to the number of symbols. -/
theorem C9_counter_invariant (w : World) (h : keyOk w = true) :
    (∀ s l,
      ((loop_syms w (s :: l)).fst = (loop_syms w l).fst + 1 ∧
        (loop_syms w (s :: l)).snd.fst = (loop_syms w l).snd.fst) ∨
      ((loop_syms w (s :: l)).fst = (loop_syms w l).fst ∧
        (loop_syms w (s :: l)).snd.fst = (loop_syms w l).snd.fst + 1)) ∧
    (main_run w).successCount + (main_run w).failureCount = SYMBOLS.length ∧
    0 ≤ (main_run w).successCount ∧ 0 ≤ (main_run w).failureCount := by
  refine ⟨fun s l => loop_syms_step w s l, ?_, Nat.zero_le _, Nat.zero_le _⟩
  simp only [main_run, h, if_true]
  exact loop_syms_sum w SYMBOLS

/-- Witness for C9 at a concrete world (credential present). -/
theorem C9_counter_invariant_witness :
    (∀ s l,
      ((loop_syms wErr (s :: l)).fst = (loop_syms wErr l).fst + 1 ∧
        (loop_syms wErr (s :: l)).snd.fst = (loop_syms wErr l).snd.fst) ∨
      ((loop_syms wErr (s :: l)).fst = (loop_syms wErr l).fst ∧
        (loop_syms wErr (s :: l)).snd.fst = (loop_syms wErr l).snd.fst + 1)) ∧
    (main_run wErr).successCount + (main_run wErr).failureCount = SYMBOLS.length ∧
    0 ≤ (main_run wErr).successCount ∧ 0 ≤ (main_run wErr).failureCount :=
  C9_counter_invariant wErr (by decide)

/-- C8: when the credential check passes, every webhook POST in the run's
trace was made for some listed symbol whose analysis returned exactly that
record, and that record contains all nine required keys — a symbol whose
analysis failed never reaches the publishing state. -/
theorem C8_publish_only_valid (w : World) (j : JObj) (u : List Char) (n : Nat)
    (hk : keyOk w = true)
    (hmem : Ev.webhookPost j u n ∈ (main_run w).trace) :
    ∃ s, s ∈ SYMBOLS ∧ (run_futfw_analysis s (w.svc s)).fst = some j ∧
      ∀ f ∈ required_fields, jHasKey j f = true := by
  simp only [main_run, hk, if_true] at hmem
  rcases List.mem_append.mp hmem with h1 | h2
  · rcases List.mem_append.mp h1 with h3 | h4
    · simp [banner] at h3
    · obtain ⟨s, hs, hj⟩ := loop_post_origin h4
      exact ⟨s, hs, hj, run_some_valid hj⟩
  · simp at h2

/-- A well-formed response text, used to exercise the success path. -/
def cGoodText : List Char :=
  ("\x7b\"symbol\": \"MGC1\", \"trend_1h\": \"bullish\", \"trend_15m\": \"neutral\", \"current_price\": 10.5, \"entry_price\": 10, \"stop_loss\": 9, \"take_profit\": 12, \"support_levels\": [9, 8], \"resistance_levels\": [11, 12], \"entry_signal\": \"test\"\x7d").toList

/-- The record parsed from `cGoodText`. -/
def cGoodObj : JObj :=
  [(("symbol").toList, ("\"MGC1\"").toList),
   (("trend_1h").toList, ("\"bullish\"").toList),
   (("trend_15m").toList, ("\"neutral\"").toList),
   (("current_price").toList, ("10.5").toList),
   (("entry_price").toList, ("10").toList),
   (("stop_loss").toList, ("9").toList),
   (("take_profit").toList, ("12").toList),
   (("support_levels").toList, ("[9, 8]").toList),
   (("resistance_levels").toList, ("[11, 12]").toList),
   (("entry_signal").toList, ("\"test\"").toList)]

/-- Witness world on which every symbol analyzes and publishes successfully. -/
def wGood : World :=
  { apiKey := some (("k").toList), svc := fun _ => SvcResult.ok cGoodText,
    post := fun _ => PostResult.resp 200 }

/-- Witness for C8 at a concrete world whose trace contains a webhook POST. -/
theorem C8_publish_only_valid_witness :
    ∃ s, s ∈ SYMBOLS ∧ (run_futfw_analysis s (wGood.svc s)).fst = some cGoodObj ∧
      ∀ f ∈ required_fields, jHasKey cGoodObj f = true :=
  C8_publish_only_valid wGood cGoodObj WEBHOOK_URL WEBHOOK_TIMEOUT (by decide) (by decide)

end Futfw
